import Mathlib

/-!
Verification development for the connection-handling core of a transparent
TCP proxy (`handler.go`): protocol pre-detection (`CheckPre`), stream
peek/rewrite (`Pre`), and the duplex forwarding engine
(`forwardConn` / `_forwardConn`).

The Go standard-library routines the handler calls
(`net.SplitHostPort`, `net.JoinHostPort`, `net.ParseIP`, `strconv.Atoi`,
`strings.HasPrefix`) are modelled faithfully below over `List Char`
(the handler only ever splits on ASCII delimiters, for which byte-wise
and char-wise scanning agree).  The `vhost` sniffing library and the
network connections are external collaborators; their observable
behaviour (returned wrapper handle, extracted host, error, read/write
results, clock readings) is supplied as oracle data.
-/

set_option maxHeartbeats 1000000

namespace TcpRoute

/-- Index of the first occurrence of `c` in `s` (Go `byteIndex`). -/
def firstIdxOf : List Char → Char → Option Nat
  | [], _ => none
  | a :: rest, c =>
    if a = c then some 0 else (firstIdxOf rest c).map (· + 1)

/-- Index of the last occurrence of `c` in `s` (Go `last`). -/
def lastIdxOf : List Char → Char → Option Nat
  | [], _ => none
  | a :: rest, c =>
    match lastIdxOf rest c with
    | some j => some (j + 1)
    | none => if a = c then some 0 else none

/-- Model of Go `strings.HasPrefix` over char lists. -/
def hasPrefixChars : List Char → List Char → Bool
  | _, [] => true
  | [], _ :: _ => false
  | c :: s, p :: ps => c == p && hasPrefixChars s ps

/-- Model of Go `strings.HasPrefix`. -/
def hasPrefixGo (s pre : String) : Bool :=
  hasPrefixChars s.data pre.data

/-- Model of Go `net.SplitHostPort`: splits `"host:port"`,
`"[host]:port"`; `none` models a non-nil error. -/
def splitHostPort (hostPort : String) : Option (String × String) :=
  let s := hostPort.data
  match lastIdxOf s ':' with
  | none => none
  | some i =>
    if s.head? = some '[' then
      match firstIdxOf s ']' with
      | none => none
      | some e =>
        if e + 1 = s.length then none
        else if e + 1 = i then
          if (s.drop 1).contains '[' then none
          else if (s.drop (e + 1)).contains ']' then none
          else some (String.mk ((s.drop 1).take (e - 1)), String.mk (s.drop (i + 1)))
        else none
    else
      let host := s.take i
      if host.contains ':' then none
      else if s.contains '[' then none
      else if s.contains ']' then none
      else some (String.mk host, String.mk (s.drop (i + 1)))

/-- Model of Go `net.JoinHostPort`: brackets the host when it contains a colon. -/
def joinHostPort (host port : String) : String :=
  if host.data.contains ':' then "[" ++ host ++ "]:" ++ port
  else host ++ ":" ++ port

/-- Go `net`'s `big` constant (0xFFFFFF), the cutoff of `dtoi`/`xtoi`. -/
def bigGo : Nat := 0xFFFFFF

/-- Loop of Go `net.dtoi`: consume decimal digits, failing at the `big` cutoff. -/
def dtoiLoop : Nat → List Char → Option (Nat × List Char)
  | n, [] => some (n, [])
  | n, c :: rest =>
    if c.isDigit then
      let n' := n * 10 + (c.toNat - '0'.toNat)
      if bigGo ≤ n' then none else dtoiLoop n' rest
    else some (n, c :: rest)

/-- Model of Go `net.dtoi`: at least one decimal digit, value below `big`;
returns the value and the unconsumed suffix. -/
def dtoi : List Char → Option (Nat × List Char)
  | [] => none
  | c :: rest => if c.isDigit then dtoiLoop 0 (c :: rest) else none

/-- Hexadecimal digit test used by Go `net.xtoi`. -/
def isHexChar (c : Char) : Bool :=
  c.isDigit || ('a' ≤ c && c ≤ 'f') || ('A' ≤ c && c ≤ 'F')

/-- Value of a hex digit, as in Go `net.xtoi`. -/
def hexVal (c : Char) : Nat :=
  if c.isDigit then c.toNat - '0'.toNat
  else if 'a' ≤ c && c ≤ 'f' then c.toNat - 'a'.toNat + 10
  else c.toNat - 'A'.toNat + 10

/-- Loop of Go `net.xtoi`: consume hex digits, failing at the `big` cutoff. -/
def xtoiLoop : Nat → List Char → Option (Nat × List Char)
  | n, [] => some (n, [])
  | n, c :: rest =>
    if isHexChar c then
      let n' := n * 16 + hexVal c
      if bigGo ≤ n' then none else xtoiLoop n' rest
    else some (n, c :: rest)

/-- Model of Go `net.xtoi`: at least one hex digit, value below `big`. -/
def xtoi : List Char → Option (Nat × List Char)
  | [] => none
  | c :: rest => if isHexChar c then xtoiLoop 0 (c :: rest) else none

/-- Field loop of Go `net.parseIPv4`: `k` dot-separated decimal octets `≤ 0xFF`. -/
def parseIPv4Fields : Nat → List Char → Option (List Nat × List Char)
  | 0, s => some ([], s)
  | k + 1, s => do
    let (n, s1) ← dtoi s
    if 0xFF < n then none
    else if k = 0 then some ([n], s1)
    else
      match s1 with
      | '.' :: s2 => do
        let (ns, s3) ← parseIPv4Fields k s2
        some (n :: ns, s3)
      | _ => none

/-- The IPv4-in-IPv6 prefix used by Go's 16-byte `IPv4(...)` representation. -/
def v4InV6Pre : List Nat := [0, 0, 0, 0, 0, 0, 0, 0, 0, 0, 0xff, 0xff]

/-- Model of Go `net.parseIPv4`: the entire string is `a.b.c.d`;
result is the 16-byte IPv4-in-IPv6 form that `net.IPv4` builds. -/
def parseIPv4 (s : List Char) : Option (List Nat) := do
  let (ns, rest) ← parseIPv4Fields 4 s
  if rest = [] then some (v4InV6Pre ++ ns) else none

/-- Post-loop phase of Go `net.parseIPv6`: the string must be exhausted and
the ellipsis (if any) expanded into the missing zero groups. -/
def ipv6Finish (s : List Char) (acc : List Nat) (ell : Option Nat) : Option (List Nat) :=
  if s ≠ [] then none
  else if acc.length < 16 then
    match ell with
    | none => none
    | some e => some (acc.take e ++ List.replicate (16 - acc.length) 0 ++ acc.drop e)
  else
    match ell with
    | some _ => none
    | none => some acc

/-- Main loop of Go `net.parseIPv6`: hex groups separated by `:`, one
optional `::` ellipsis, optional trailing dotted IPv4.  `acc` holds the
bytes produced so far (Go's `ip[0:i]`), `ell` the ellipsis byte position.
The fuel bounds the iteration count (each iteration adds two bytes, so
8 always suffices from an empty accumulator). -/
def parseIPv6Loop : Nat → List Char → List Nat → Option Nat → Option (List Nat)
  | fuel, s, acc, ell =>
    if 16 ≤ acc.length then ipv6Finish s acc ell
    else
      match fuel with
      | 0 => none
      | fuel' + 1 =>
        match xtoi s with
        | none => none
        | some (n, rest) =>
          if 0xFFFF < n then none
          else if rest.head? = some '.' then
            if ell = none ∧ acc.length ≠ 12 then none
            else if 16 < acc.length + 4 then none
            else
              match parseIPv4 s with
              | none => none
              | some ip4 => ipv6Finish [] (acc ++ ip4.drop 12) ell
          else
            let acc' := acc ++ [n / 256, n % 256]
            match rest with
            | [] => ipv6Finish [] acc' ell
            | c :: rest' =>
              if c ≠ ':' ∨ rest' = [] then none
              else
                match rest' with
                | ':' :: rest'' =>
                  if ell ≠ none then none
                  else if rest'' = [] then ipv6Finish [] acc' (some acc'.length)
                  else parseIPv6Loop fuel' rest'' acc' (some acc'.length)
                | _ => parseIPv6Loop fuel' rest' acc' ell

/-- Model of Go `net.parseIPv6` (no zone, as `ParseIP` disallows zones). -/
def parseIPv6 (s : List Char) : Option (List Nat) :=
  match s with
  | ':' :: ':' :: rest =>
    if rest = [] then some (List.replicate 16 0)
    else parseIPv6Loop 8 rest [] (some 0)
  | _ => parseIPv6Loop 8 s [] none

/-- Scan phase of Go `net.ParseIP`: dispatch on the first `.` or `:`. -/
def parseIPScan : List Char → List Char → Option (List Nat)
  | _, [] => none
  | full, c :: rest =>
    if c = '.' then parseIPv4 full
    else if c = ':' then parseIPv6 full
    else parseIPScan full rest

/-- Model of Go `net.ParseIP`: `none` models the `nil` result. -/
def parseIP (s : String) : Option (List Nat) :=
  parseIPScan s.data s.data

/-- Model of Go `strconv.Atoi` (= `ParseInt(s, 10, 0)` on a 64-bit platform):
optional sign, at least one decimal digit, value within `int64` range. -/
def atoi (s : String) : Option Int :=
  match s.data with
  | [] => none
  | c :: rest =>
    let (neg, digits) :=
      if c = '-' then (true, rest)
      else if c = '+' then (false, rest)
      else (false, c :: rest)
    if digits = [] then none
    else if digits.all Char.isDigit then
      let n : Nat := digits.foldl (fun a d => a * 10 + (d.toNat - '0'.toNat)) 0
      let v : Int := if neg then -(n : Int) else (n : Int)
      if -(9223372036854775808 : Int) ≤ v ∧ v ≤ 9223372036854775807 then some v else none
    else none

/-! ## Constants and `CheckPre` (handler.go lines 19-26, 115-150) -/

def preProtocolUnknown : Int := 0
def preProtocolHttp : Int := 1
def preProtocolHttps : Int := 2

def preHttpPorts : List Int := [80]
def preHttpsPorts : List Int := [443]

/-- The source's helper `in` (`in` is reserved in Lean): linear membership scan. -/
def inL (v : Int) : List Int → Bool
  | [] => false
  | i :: l => if i = v then true else inL v l

/-- Model of `CheckPre` (handler.go): classify `(network, address)` into a
pre-detection protocol. -/
def CheckPre (network address : String) : Int :=
  if hasPrefixGo network "tcp" = false then preProtocolUnknown
  else
    match splitHostPort address with
    | none => preProtocolUnknown
    | some (host, port) =>
      match parseIP host with
      | none => preProtocolUnknown
      | some _ =>
        match atoi port with
        | none => preProtocolUnknown
        | some portInt =>
          if inL portInt preHttpPorts then preProtocolHttp
          else if inL portInt preHttpsPorts then preProtocolHttps
          else preProtocolUnknown

/-! ## `Pre` (handler.go lines 152-198)

`vhost.HTTP` / `vhost.TLS` wrap the connection (returning a non-nil
wrapper even on error, as the library does) and expose the extracted
host.  What they extract and whether they fail depends on the bytes of
the stream, which the pure model abstracts as a `SnifferBehavior`
oracle; `c.Free()` releases an internal buffer and has no observable
effect here. -/

/-- Connection handles: an original connection or a sniffer wrapper around one. -/
inductive Conn where
  | base (id : Nat)
  | vhostHTTP (inner : Conn)
  | vhostTLS (inner : Conn)
deriving DecidableEq, Repr

/-- Oracle for one sniffer invocation: whether it errors, and the
`Host()` string it extracts. -/
structure SnifferBehavior where
  err : Bool
  host : String
deriving DecidableEq, Repr

/-- The final host computation of `Pre`: if the extracted raw host itself
splits into host and port, the embedded port is discarded. -/
def preHostPart (httpRawHost : String) : String :=
  match splitHostPort httpRawHost with
  | some (tHost, _) => tHost
  | none => httpRawHost

/-- Model of `Pre` (handler.go): peek at the stream to replace the host of
`address`, keeping its port.  `sh`/`st` are the behaviours of the HTTP and
TLS sniffers on this stream. -/
def Pre (sh st : SnifferBehavior) (conn : Conn) (address : String) (preProtoco : Int) :
    Conn × String × Bool :=
  match splitHostPort address with
  | none => (conn, address, false)
  | some (_, tcpPort) =>
    if preProtoco = preProtocolHttp then
      let c := Conn.vhostHTTP conn
      if sh.err then (c, address, false)
      else if sh.host = "" then (c, address, false)
      else (c, joinHostPort (preHostPart sh.host) tcpPort, true)
    else if preProtoco = preProtocolHttps then
      let c := Conn.vhostTLS conn
      if st.err then (c, address, false)
      else if st.host = "" then (c, address, false)
      else (c, joinHostPort (preHostPart st.host) tcpPort, true)
    else (conn, address, false)

/-! ## The forwarding engine (handler.go lines 55-109)

`_forwardConn` performs blocking reads and writes on two `net.Conn`s and
sends one terminal `error` on `errChan`.  The pure model drives the loop
from oracle lists of read results and write results (each mirroring Go's
`(n, err)` return values), a clock oracle for `time.Now()` (indexed by
call number), and records every externally observable operation in a
trace.  `forwardBufSize` is defined outside this file; it only caps the
size of a single read, which the read oracle already determines. -/

/-- A Go `error` value as observed by the handler: `io.EOF` or any other
error, identified by its `Error()` message. -/
inductive GoErr where
  | eof
  | other (msg : String)
deriving DecidableEq, Repr

/-- The `Error()` message (`io.EOF.Error() = "EOF"`). -/
def GoErr.message : GoErr → String
  | .eof => "EOF"
  | .other m => m

/-- Result of one `Read` call: the bytes placed in the buffer and the error
(Go returns both `n` and `err` from a single call). -/
structure ReadRes where
  data : List Nat
  err : Option GoErr
deriving DecidableEq, Repr

/-- Result of one `Write` call: bytes accepted and the error. -/
structure WriteRes where
  n : Nat
  err : Option GoErr
deriving DecidableEq, Repr

/-- The two connections of one copy task, by their names in `_forwardConn`. -/
inductive Side where
  | sConn
  | oConn
deriving DecidableEq, Repr

/-- Observable operations of one copy task. -/
inductive Ev where
  | setDeadline (c : Side) (deadline : Nat)
  | readEv (res : ReadRes)
  | writeEv (wbuf : List Nat) (res : WriteRes)
  | countAdd (n : Nat)
  | send (e : GoErr)
deriving DecidableEq, Repr

def Ev.isRead : Ev → Bool
  | .readEv _ => true
  | _ => false

def Ev.isWrite : Ev → Bool
  | .writeEv _ _ => true
  | _ => false

def Ev.isCount : Ev → Bool
  | .countAdd _ => true
  | _ => false

/-- `true` unless the event is a failed write. -/
def Ev.writeOk : Ev → Bool
  | .writeEv _ w => w.err.isNone
  | _ => true

/-- Outcome of the inner write loop. -/
inductive WOut where
  | flushed
  | werr (e : GoErr)
  | stuck
deriving DecidableEq, Repr

/-- The inner `for` loop of `_forwardConn`: keep calling `Write` on the
remaining `wbuf` until it is empty or a write errors.  Returns the write
events, the unconsumed write oracle, and the outcome (`stuck` models a
`Write` call that blocks forever because the oracle is exhausted). -/
def writeAll : List Nat → List WriteRes → List Ev × List WriteRes × WOut
  | [], ws => ([], ws, .flushed)
  | _ :: _, [] => ([], [], .stuck)
  | a :: bs, w :: ws =>
    match w.err with
    | some e => ([.writeEv (a :: bs) w], ws, .werr e)
    | none =>
      let r := writeAll ((a :: bs).drop w.n) ws
      (.writeEv (a :: bs) w :: r.1, r.2)

/-- The value `_forwardConn` sends on `errChan` for a read error
(`io.EOF` is forwarded as is, anything else is wrapped by
`fmt.Errorf("转发读错误：%v", err)`). -/
def readTerminal (e : GoErr) : GoErr :=
  if e = .eof then .eof else .other ("转发读错误：" ++ e.message)

/-- The value `_forwardConn` sends on `errChan` for a write error. -/
def writeTerminal (e : GoErr) : GoErr :=
  if e = .eof then .eof else .other ("转发写错误：" ++ e.message)

/-- Result of running one copy task: its observable trace, the terminal
value sent on `errChan` (`none` when the task is still blocked when the
oracles run out), and the final value of its counter. -/
structure RunResult where
  trace : List Ev
  sent : Option GoErr
  count : Nat
deriving DecidableEq, Repr

/-- Model of `_forwardConn` (handler.go): the outer `for` loop.  `clock`
is the `time.Now()` oracle (indexed by call number `k`), `timeout` the
deadline offset, `count` the task's counter. -/
def _forwardConn (clock : Nat → Nat) (timeout : Nat) (k : Nat) (count : Nat) :
    List ReadRes → List WriteRes → RunResult
  | [], _ => ⟨[], none, count⟩
  | r :: rs, ws =>
    let e1 := Ev.setDeadline .sConn (clock k + timeout)
    let e2 := Ev.setDeadline .oConn (clock (k + 1) + timeout)
    match r.err with
    | some e =>
      ⟨[e1, e2, .readEv r, .send (readTerminal e)], some (readTerminal e), count⟩
    | none =>
      match writeAll r.data ws with
      | (wevs, _, .werr e) =>
        ⟨e1 :: e2 :: .readEv r :: (wevs ++ [.send (writeTerminal e)]),
          some (writeTerminal e), count⟩
      | (wevs, _, .stuck) =>
        ⟨e1 :: e2 :: .readEv r :: wevs, none, count⟩
      | (wevs, ws', .flushed) =>
        let rest := _forwardConn clock timeout (k + 2) (count + r.data.length) rs ws'
        ⟨e1 :: e2 :: .readEv r :: (wevs ++ .countAdd r.data.length :: rest.trace),
          rest.sent, rest.count⟩

/-- Total payload bytes accepted by the destination connection over a
trace: each `Write` call that returned `n` delivered `wbuf.take n`. -/
def writtenBytes : List Ev → Nat
  | [] => 0
  | .writeEv b w :: rest => (b.take w.n).length + writtenBytes rest
  | _ :: rest => writtenBytes rest

/-- Concatenation of the byte runs accepted by the destination over a trace. -/
def writtenData : List Ev → List Nat
  | [] => []
  | .writeEv b w :: rest => b.take w.n ++ writtenData rest
  | _ :: rest => writtenData rest

/-- Successive values of the task's counter along a trace, starting from `init`. -/
def counterTrace (init : Nat) : List Ev → List Nat
  | [] => []
  | .countAdd n :: rest => (init + n) :: counterTrace (init + n) rest
  | _ :: rest => counterTrace init rest

/-! ## `forwardConn` (handler.go lines 61-68) -/

/-- Capacity of `errChan` (`make(chan error, 10)`). -/
def errChanCap : Nat := 10

/-- A buffered channel: each send appends when the queue has room and
blocks (`none`) otherwise. -/
def chanSendAll (cap : Nat) (q : List GoErr) : List GoErr → Option (List GoErr)
  | [] => some q
  | e :: es => if q.length < cap then chanSendAll cap (q ++ [e]) es else none

/-- Oracle data for one direction of a session. -/
structure DirOracle where
  clock : Nat → Nat
  reads : List ReadRes
  writes : List WriteRes

/-- One direction's task, run from its oracle with counter 0. -/
def runDir (timeout : Nat) (o : DirOracle) : RunResult :=
  _forwardConn o.clock timeout 0 0 o.reads o.writes

/-- Model of `forwardConn` (handler.go): spawn both copy tasks and return
the first value received from `errChan`.  `sched` resolves the only race:
which task's send is scheduled first when both terminate. -/
def forwardConn (timeout : Nat) (sendO recvO : DirOracle) (sched : Bool) : Option GoErr :=
  let r1 := runDir timeout sendO
  let r2 := runDir timeout recvO
  let sends : List GoErr :=
    match r1.sent, r2.sent with
    | some a, some b => if sched then [a, b] else [b, a]
    | some a, none => [a]
    | none, some b => [b]
    | none, none => []
  match chanSendAll errChanCap [] sends with
  | none => none
  | some q => q.head?

/-- The three protocol constants are pairwise distinct. -/
theorem protoHttpsNeHttp : preProtocolHttps ≠ preProtocolHttp := by decide

/-! ## Claim C1: classification performed by `CheckPre` -/

/-- C1: `CheckPre` returns Unknown unless the network is TCP-like, the
address splits into host and port, and the host is a literal IP; a
non-literal-IP host gives Unknown regardless of port; for a literal-IP
TCP address with a numeric port, membership of the port in the default
HTTP set `[80]` gives HTTP, in the default HTTPS set `[443]` gives
HTTPS, and any other port (or a non-numeric one) gives Unknown. -/
theorem CheckPre_classifies (network address : String) :
    (hasPrefixGo network "tcp" = false → CheckPre network address = preProtocolUnknown) ∧
    (splitHostPort address = none → CheckPre network address = preProtocolUnknown) ∧
    (∀ host port, splitHostPort address = some (host, port) → parseIP host = none →
      CheckPre network address = preProtocolUnknown) ∧
    (∀ host port, hasPrefixGo network "tcp" = true →
      splitHostPort address = some (host, port) → (parseIP host).isSome = true →
      atoi port = none → CheckPre network address = preProtocolUnknown) ∧
    (∀ host port v, hasPrefixGo network "tcp" = true →
      splitHostPort address = some (host, port) → (parseIP host).isSome = true →
      atoi port = some v →
      CheckPre network address =
        (if inL v preHttpPorts then preProtocolHttp
         else if inL v preHttpsPorts then preProtocolHttps
         else preProtocolUnknown)) := by
  refine ⟨?_, ?_, ?_, ?_, ?_⟩
  · intro h
    simp [CheckPre, h]
  · intro h
    cases hpre : hasPrefixGo network "tcp" with
    | false => simp [CheckPre, hpre]
    | true => simp [CheckPre, hpre, h]
  · intro host port hsplit hip
    cases hpre : hasPrefixGo network "tcp" with
    | false => simp [CheckPre, hpre]
    | true => simp [CheckPre, hpre, hsplit, hip]
  · intro host port hpre hsplit hip hatoi
    obtain ⟨ip, hip'⟩ := Option.isSome_iff_exists.mp hip
    simp [CheckPre, hpre, hsplit, hip', hatoi]
  · intro host port v hpre hsplit hip hatoi
    obtain ⟨ip, hip'⟩ := Option.isSome_iff_exists.mp hip
    simp [CheckPre, hpre, hsplit, hip', hatoi]

/-- Witness for C1 at the spec's own scenario: network `"tcp"`, address
`"93.184.216.34:80"` classifies as HTTP. -/
theorem CheckPre_classifies_witness :
    CheckPre "tcp" "93.184.216.34:80" = preProtocolHttp := by
  have h := (CheckPre_classifies "tcp" "93.184.216.34:80").2.2.2.2
    "93.184.216.34" "80" 80 (by decide) (by decide) (by decide) (by decide)
  simpa [preHttpPorts, inL] using h

/-! ## Claim C2: a successful peek preserves the original port -/

/-- C2: whenever `Pre` succeeds (`ok = true`), the original address did
split into host and port, and the returned address is the join of the
extracted host with exactly that original port; an embedded port inside
the extracted host string is discarded by `preHostPart` before the
re-join, so only the host component changes. -/
theorem Pre_preserves_original_port (sh st : SnifferBehavior) (conn : Conn)
    (address : String) (preProtoco : Int)
    (hok : (Pre sh st conn address preProtoco).2.2 = true) :
    ∃ host port, splitHostPort address = some (host, port) ∧
      (Pre sh st conn address preProtoco).2.1 =
        joinHostPort
          (preHostPart (if preProtoco = preProtocolHttp then sh.host else st.host))
          port := by
  cases hsplit : splitHostPort address with
  | none => simp [Pre, hsplit] at hok
  | some pr =>
    obtain ⟨h0, p0⟩ := pr
    refine ⟨h0, p0, rfl, ?_⟩
    by_cases h1 : preProtoco = preProtocolHttp
    · by_cases herr : sh.err
      · simp [Pre, hsplit, h1, herr] at hok
      · by_cases hh : sh.host = ""
        · simp [Pre, hsplit, h1, herr, hh] at hok
        · simp [Pre, hsplit, h1, herr, hh]
    · by_cases h2 : preProtoco = preProtocolHttps
      · by_cases herr : st.err
        · simp [Pre, hsplit, h2, protoHttpsNeHttp, herr] at hok
        · by_cases hh : st.host = ""
          · simp [Pre, hsplit, h2, protoHttpsNeHttp, herr, hh] at hok
          · simp [Pre, hsplit, h2, protoHttpsNeHttp, herr, hh]
      · simp [Pre, hsplit, h1, h2] at hok

/-- Witness for C2: an HTTP peek on `"1.2.3.4:80"` that extracts
`"example.com:9999"` re-joins with the original port `80`. -/
theorem Pre_preserves_original_port_witness :
    ∃ host port, splitHostPort "1.2.3.4:80" = some (host, port) ∧
      (Pre ⟨false, "example.com:9999"⟩ ⟨false, ""⟩ (Conn.base 0) "1.2.3.4:80"
          preProtocolHttp).2.1 =
        joinHostPort
          (preHostPart
            (if preProtocolHttp = preProtocolHttp then "example.com:9999" else ""))
          port :=
  Pre_preserves_original_port ⟨false, "example.com:9999"⟩ ⟨false, ""⟩ (Conn.base 0)
    "1.2.3.4:80" preProtocolHttp (by decide)

/-! ## Claim C3: failing `Pre` returns the latest handle and the address unchanged -/

/-- C3: whenever `Pre` fails (`ok = false`), the returned address is the
original address unchanged, and the returned connection is the most
recently obtained handle: the sniffer wrapper when the sniffer was
already invoked (address split succeeded and the category selected a
sniffer), otherwise the original connection. -/
theorem Pre_failure_returns (sh st : SnifferBehavior) (conn : Conn)
    (address : String) (preProtoco : Int)
    (hfail : (Pre sh st conn address preProtoco).2.2 = false) :
    (Pre sh st conn address preProtoco).2.1 = address ∧
    (Pre sh st conn address preProtoco).1 =
      (if splitHostPort address = none then conn
       else if preProtoco = preProtocolHttp then Conn.vhostHTTP conn
       else if preProtoco = preProtocolHttps then Conn.vhostTLS conn
       else conn) := by
  cases hsplit : splitHostPort address with
  | none => simp [Pre, hsplit]
  | some pr =>
    obtain ⟨h0, p0⟩ := pr
    by_cases h1 : preProtoco = preProtocolHttp
    · by_cases herr : sh.err
      · simp [Pre, hsplit, h1, herr]
      · by_cases hh : sh.host = ""
        · simp [Pre, hsplit, h1, herr, hh]
        · simp [Pre, hsplit, h1, herr, hh] at hfail
    · by_cases h2 : preProtoco = preProtocolHttps
      · by_cases herr : st.err
        · simp [Pre, hsplit, h2, protoHttpsNeHttp, herr]
        · by_cases hh : st.host = ""
          · simp [Pre, hsplit, h2, protoHttpsNeHttp, herr, hh]
          · simp [Pre, hsplit, h2, protoHttpsNeHttp, herr, hh] at hfail
      · simp [Pre, hsplit, h1, h2]

/-- Witness for C3: a failed HTTP sniff on `"1.2.3.4:80"` returns the
sniffer-wrapped handle and the unchanged address. -/
theorem Pre_failure_returns_witness :
    (Pre ⟨true, "x"⟩ ⟨false, "y"⟩ (Conn.base 0) "1.2.3.4:80" preProtocolHttp).2.1 =
        "1.2.3.4:80" ∧
    (Pre ⟨true, "x"⟩ ⟨false, "y"⟩ (Conn.base 0) "1.2.3.4:80" preProtocolHttp).1 =
      (if splitHostPort "1.2.3.4:80" = none then Conn.base 0
       else if preProtocolHttp = preProtocolHttp then Conn.vhostHTTP (Conn.base 0)
       else if preProtocolHttp = preProtocolHttps then Conn.vhostTLS (Conn.base 0)
       else Conn.base 0) :=
  Pre_failure_returns ⟨true, "x"⟩ ⟨false, "y"⟩ (Conn.base 0) "1.2.3.4:80"
    preProtocolHttp (by decide)

/-! ## Claim C9: `Pre` with an unknown category, or an unsplittable address -/

/-- C9: for a protocol category that is neither HTTP nor HTTPS, `Pre`
returns the original connection and address with `ok = false`; the same
holds when the address does not split into host and port.  Both results
hold for every sniffer behaviour and return the unwrapped original
connection, which is the pure-model statement that no sniffer is
invoked. -/
theorem Pre_skips_without_sniffing (sh st : SnifferBehavior) (conn : Conn)
    (address : String) (preProtoco : Int) :
    (preProtoco ≠ preProtocolHttp → preProtoco ≠ preProtocolHttps →
      Pre sh st conn address preProtoco = (conn, address, false)) ∧
    (splitHostPort address = none →
      Pre sh st conn address preProtoco = (conn, address, false)) := by
  constructor
  · intro h1 h2
    cases hsplit : splitHostPort address with
    | none => simp [Pre, hsplit]
    | some pr => simp [Pre, hsplit, h1, h2]
  · intro h
    simp [Pre, h]

/-- Witness for C9: category Unknown on a well-formed address, and any
category on an address with no port, both return the input unchanged. -/
theorem Pre_skips_without_sniffing_witness :
    Pre ⟨false, "x"⟩ ⟨false, "y"⟩ (Conn.base 3) "1.2.3.4:80" preProtocolUnknown =
      (Conn.base 3, "1.2.3.4:80", false) :=
  (Pre_skips_without_sniffing ⟨false, "x"⟩ ⟨false, "y"⟩ (Conn.base 3) "1.2.3.4:80"
    preProtocolUnknown).1 (by decide) (by decide)

/-! ## Helper lemmas about the copy-task trace -/

/-- Every event produced by the inner write loop is a `writeEv`. -/
theorem writeAll_events_write : ∀ (ws : List WriteRes) (wbuf : List Nat),
    ∀ ev ∈ (writeAll wbuf ws).1, ev.isWrite = true := by
  intro ws
  induction ws with
  | nil =>
    intro wbuf ev hev
    cases wbuf with
    | nil => simp [writeAll] at hev
    | cons a bs => simp [writeAll] at hev
  | cons w ws ih =>
    intro wbuf ev hev
    cases wbuf with
    | nil => simp [writeAll] at hev
    | cons a bs =>
      cases hw : w.err with
      | some e =>
        simp [writeAll, hw] at hev
        simp [hev, Ev.isWrite]
      | none =>
        simp [writeAll, hw] at hev
        rcases hev with hev | hev
        · simp [hev, Ev.isWrite]
        · exact ih _ ev hev

theorem Ev.not_read_of_write {ev : Ev} (h : ev.isWrite = true) : ev.isRead = false := by
  cases ev <;> simp_all [Ev.isWrite, Ev.isRead]

theorem Ev.not_count_of_write {ev : Ev} (h : ev.isWrite = true) : ev.isCount = false := by
  cases ev <;> simp_all [Ev.isWrite, Ev.isCount]

/-- Splitting a list at a `readEv` that cannot occur in the head part `xs`. -/
theorem split_readEv_after (xs : List Ev) (hx : ∀ ev ∈ xs, ev.isRead = false) :
    ∀ (pre suf tail : List Ev) (r : ReadRes),
      pre ++ Ev.readEv r :: suf = xs ++ tail →
      ∃ pre2, pre = xs ++ pre2 ∧ pre2 ++ Ev.readEv r :: suf = tail := by
  induction xs with
  | nil =>
    intro pre suf tail r h
    exact ⟨pre, by simp, by simpa using h⟩
  | cons x xs ih =>
    intro pre suf tail r h
    cases pre with
    | nil =>
      simp only [List.nil_append, List.cons_append, List.cons.injEq] at h
      have hx0 := hx x (by simp)
      rw [← h.1] at hx0
      simp [Ev.isRead] at hx0
    | cons p pre' =>
      simp only [List.cons_append, List.cons.injEq] at h
      obtain ⟨hp, h2⟩ := h
      obtain ⟨pre2, hpre, htail⟩ := ih (fun ev hev => hx ev (by simp [hev])) pre' suf tail r h2
      exact ⟨pre2, by simp [hp, hpre], htail⟩

theorem writtenBytes_append (xs ys : List Ev) :
    writtenBytes (xs ++ ys) = writtenBytes xs + writtenBytes ys := by
  induction xs with
  | nil => simp [writtenBytes]
  | cons x xs ih =>
    cases x <;> simp [writtenBytes, ih]
    omega

theorem writtenBytes_eq_length (evs : List Ev) :
    writtenBytes evs = (writtenData evs).length := by
  induction evs with
  | nil => simp [writtenBytes, writtenData]
  | cons x xs ih =>
    cases x <;> simp [writtenBytes, writtenData, ih]

/-- A flushed inner write loop delivered exactly the chunk. -/
theorem writeAll_flushed_written : ∀ (ws : List WriteRes) (wbuf : List Nat)
    (evs : List Ev) (ws' : List WriteRes),
    writeAll wbuf ws = (evs, ws', .flushed) → writtenData evs = wbuf := by
  intro ws
  induction ws with
  | nil =>
    intro wbuf evs ws' h
    cases wbuf with
    | nil => simp [writeAll] at h; simp [h.1, writtenData]
    | cons a bs => simp [writeAll] at h
  | cons w ws ih =>
    intro wbuf evs ws' h
    cases wbuf with
    | nil => simp [writeAll] at h; simp [h.1, writtenData]
    | cons a bs =>
      cases hw : w.err with
      | some e => simp [writeAll, hw] at h
      | none =>
        simp only [writeAll, hw] at h
        rcases hr : writeAll ((a :: bs).drop w.n) ws with ⟨evs1, ws1, out1⟩
        rw [hr] at h
        cases out1 with
        | flushed =>
          simp only [Prod.mk.injEq] at h
          have := ih ((a :: bs).drop w.n) evs1 ws1 (by rw [hr])
          rw [← h.1]
          simp [writtenData, this, List.take_append_drop]
        | werr e => simp at h
        | stuck => simp at h

/-- An inner write loop that ended in a write error delivered a prefix of
the chunk (`take`), and one of its events is the failed write. -/
theorem writeAll_werr_written (e : GoErr) : ∀ (ws : List WriteRes) (wbuf : List Nat)
    (evs : List Ev) (ws' : List WriteRes),
    writeAll wbuf ws = (evs, ws', .werr e) →
    (∃ k, writtenData evs = wbuf.take k) ∧ ∃ ev ∈ evs, ev.writeOk = false := by
  intro ws
  induction ws with
  | nil =>
    intro wbuf evs ws' h
    cases wbuf with
    | nil => simp [writeAll] at h
    | cons a bs => simp [writeAll] at h
  | cons w ws ih =>
    intro wbuf evs ws' h
    cases wbuf with
    | nil => simp [writeAll] at h
    | cons a bs =>
      cases hw : w.err with
      | some e' =>
        simp only [writeAll, hw, Prod.mk.injEq] at h
        obtain ⟨hevs, -, hout⟩ := h
        have he : e' = e := by
          cases hout; rfl
        refine ⟨⟨w.n, ?_⟩, ⟨Ev.writeEv (a :: bs) w, ?_, ?_⟩⟩
        · rw [← hevs]; simp [writtenData]
        · rw [← hevs]; simp
        · simp [Ev.writeOk, hw]
      | none =>
        simp only [writeAll, hw] at h
        rcases hr : writeAll ((a :: bs).drop w.n) ws with ⟨evs1, ws1, out1⟩
        rw [hr] at h
        cases out1 with
        | flushed => simp at h
        | stuck => simp at h
        | werr e'' =>
          simp only [Prod.mk.injEq] at h
          obtain ⟨hevs, -, hout⟩ := h
          have he : e'' = e := by cases hout; rfl
          rw [he] at hr
          obtain ⟨⟨k1, hk1⟩, ⟨ev1, hev1, hok1⟩⟩ := ih ((a :: bs).drop w.n) evs1 ws1 hr
          constructor
          · refine ⟨w.n + k1, ?_⟩
            rw [← hevs]
            simp [writtenData, hk1, List.take_add]
          · exact ⟨ev1, by rw [← hevs]; simp [hev1], hok1⟩

/-- The counter of a copy task never decreases along its trace. -/
theorem counterTrace_mono (t : List Ev) : ∀ init : Nat,
    List.Chain' (· ≤ ·) (init :: counterTrace init t) := by
  induction t with
  | nil => intro init; simp [counterTrace]
  | cons x xs ih =>
    intro init
    cases x with
    | countAdd n =>
      rw [counterTrace, List.chain'_cons]
      exact ⟨Nat.le_add_right init n, ih (init + n)⟩
    | setDeadline c d => exact ih init
    | readEv r => exact ih init
    | writeEv b w => exact ih init
    | send e => exact ih init

/-! ## Claim C6: deadlines renewed before every read -/

/-- C6: in every iteration of a copy task's loop, immediately before the
read, the deadline of the source connection and then the deadline of the
destination connection are set to `now + timeout` from two fresh
`time.Now()` readings — formally, every `readEv` in the task's trace is
directly preceded by the two `setDeadline` events.  The timeout is thus
renewed on every iteration (an idle timeout, not a session-lifetime cap). -/
theorem deadline_renewed_before_reads (reads : List ReadRes) (ws : List WriteRes)
    (clock : Nat → Nat) (timeout k count : Nat) (pre suf : List Ev) (r : ReadRes)
    (h : (_forwardConn clock timeout k count reads ws).trace = pre ++ Ev.readEv r :: suf) :
    ∃ pre' j, pre = pre' ++
      [Ev.setDeadline .sConn (clock j + timeout),
       Ev.setDeadline .oConn (clock (j + 1) + timeout)] := by
  induction reads generalizing ws k count pre suf with
  | nil => simp [_forwardConn] at h
  | cons r0 rs ih =>
    cases hrerr : r0.err with
    | some e =>
      simp only [_forwardConn, hrerr] at h
      cases pre with
      | nil => simp at h
      | cons p1 pre1 =>
        cases pre1 with
        | nil => simp at h
        | cons p2 pre2 =>
          cases pre2 with
          | nil =>
            simp only [List.cons_append, List.nil_append, List.cons.injEq] at h
            exact ⟨[], k, by simp [← h.1, ← h.2.1]⟩
          | cons p3 pre3 =>
            simp only [List.cons_append, List.cons.injEq] at h
            have h4 := h.2.2.2
            cases pre3 with
            | nil => simp at h4
            | cons q qs => simp at h4
    | none =>
      rcases hw : writeAll r0.data ws with ⟨wevs, ws', wout⟩
      have hwevs : ∀ ev ∈ wevs, ev.isRead = false := by
        intro ev hev
        exact Ev.not_read_of_write (writeAll_events_write ws r0.data ev (by rw [hw]; exact hev))
      cases wout with
      | werr e =>
        simp only [_forwardConn, hrerr, hw] at h
        cases pre with
        | nil => simp at h
        | cons p1 pre1 =>
          cases pre1 with
          | nil => simp at h
          | cons p2 pre2 =>
            cases pre2 with
            | nil =>
              simp only [List.cons_append, List.nil_append, List.cons.injEq] at h
              exact ⟨[], k, by simp [← h.1, ← h.2.1]⟩
            | cons p3 pre3 =>
              simp only [List.cons_append, List.cons.injEq] at h
              have h4 := h.2.2.2.symm
              obtain ⟨pre2', -, htail⟩ :=
                split_readEv_after wevs hwevs pre3 suf [Ev.send (writeTerminal e)] r h4
              cases pre2' with
              | nil => simp at htail
              | cons q qs => simp at htail
      | stuck =>
        simp only [_forwardConn, hrerr, hw] at h
        cases pre with
        | nil => simp at h
        | cons p1 pre1 =>
          cases pre1 with
          | nil => simp at h
          | cons p2 pre2 =>
            cases pre2 with
            | nil =>
              simp only [List.cons_append, List.nil_append, List.cons.injEq] at h
              exact ⟨[], k, by simp [← h.1, ← h.2.1]⟩
            | cons p3 pre3 =>
              simp only [List.cons_append, List.cons.injEq] at h
              have h4 : pre3 ++ Ev.readEv r :: suf = wevs ++ [] := by
                simpa using h.2.2.2.symm
              obtain ⟨pre2', -, htail⟩ := split_readEv_after wevs hwevs pre3 suf [] r h4
              simp at htail
      | flushed =>
        simp only [_forwardConn, hrerr, hw] at h
        cases pre with
        | nil => simp at h
        | cons p1 pre1 =>
          cases pre1 with
          | nil => simp at h
          | cons p2 pre2 =>
            cases pre2 with
            | nil =>
              simp only [List.cons_append, List.nil_append, List.cons.injEq] at h
              exact ⟨[], k, by simp [← h.1, ← h.2.1]⟩
            | cons p3 pre3 =>
              simp only [List.cons_append, List.cons.injEq] at h
              have h4 := h.2.2.2.symm
              obtain ⟨pre2', hpre3, htail⟩ :=
                split_readEv_after wevs hwevs pre3 suf
                  (Ev.countAdd r0.data.length ::
                    (_forwardConn clock timeout (k + 2) (count + r0.data.length) rs ws').trace)
                  r h4
              cases pre2' with
              | nil => simp at htail
              | cons q qs =>
                simp only [List.cons_append, List.cons.injEq] at htail
                obtain ⟨hq, htail2⟩ := htail
                obtain ⟨pre'', j, hpre''⟩ := ih ws' (k + 2) (count + r0.data.length) qs suf htail2.symm
                refine ⟨p1 :: p2 :: p3 :: (wevs ++ q :: pre''), j, ?_⟩
                rw [hpre3, hpre'']
                simp

/-- Witness for C6: in a one-iteration run with `clock = id`, `timeout = 5`,
the prefix before the read consists of the two deadline renewals. -/
theorem deadline_renewed_before_reads_witness :
    ∃ pre' j,
      ([Ev.setDeadline .sConn 5, Ev.setDeadline .oConn 6] : List Ev) = pre' ++
        [Ev.setDeadline .sConn ((fun x => x) j + 5),
         Ev.setDeadline .oConn ((fun x => x) (j + 1) + 5)] :=
  deadline_renewed_before_reads [⟨[], some .eof⟩] [] (fun x => x) 5 0 0
    [Ev.setDeadline .sConn 5, Ev.setDeadline .oConn 6] [Ev.send GoErr.eof]
    ⟨[], some .eof⟩ (by decide)

/-! ## Claim C5: counters -/

/-- C5 counterexample to the claim as stated: in a session whose chunk of
2 bytes is interrupted by a write error after a partial write of 1 byte,
`forward` returns (a terminal event is reported) but the counter (0) does
not equal the number of payload bytes successfully written (1): the
counter is only incremented after a full chunk flush, so partial progress
of a failed chunk is never counted. -/
theorem counter_not_bytes_written_cex :
    (_forwardConn (fun _ => 0) 0 0 0 [⟨[7, 7], none⟩]
        [⟨1, some (.other "x")⟩]).sent.isSome = true ∧
    (_forwardConn (fun _ => 0) 0 0 0 [⟨[7, 7], none⟩] [⟨1, some (.other "x")⟩]).count ≠
      writtenBytes
        (_forwardConn (fun _ => 0) 0 0 0 [⟨[7, 7], none⟩]
          [⟨1, some (.other "x")⟩]).trace := by
  decide

/-- C5 (amended): each direction's counter is monotonically non-decreasing
over the session, and when the task reports its terminal event, the final
counter equals the exact number of payload bytes successfully written in
that direction provided no write call failed (equivalently, whenever the
terminal event came from the read side); a chunk interrupted by a write
error contributes none of its partially written bytes to the counter. -/
theorem counter_monotone_and_flushed_exact (reads : List ReadRes) (ws : List WriteRes)
    (clock : Nat → Nat) (timeout k count : Nat) :
    List.Chain' (· ≤ ·)
      (count :: counterTrace count (_forwardConn clock timeout k count reads ws).trace) ∧
    ((_forwardConn clock timeout k count reads ws).sent.isSome = true →
      (∀ ev ∈ (_forwardConn clock timeout k count reads ws).trace, ev.writeOk = true) →
      (_forwardConn clock timeout k count reads ws).count =
        count + writtenBytes (_forwardConn clock timeout k count reads ws).trace) := by
  constructor
  · exact counterTrace_mono _ count
  · induction reads generalizing ws k count with
    | nil =>
      intro hs
      simp [_forwardConn] at hs
    | cons r0 rs ih =>
      intro hs hok
      cases hrerr : r0.err with
      | some e =>
        simp [_forwardConn, hrerr, writtenBytes]
      | none =>
        rcases hw : writeAll r0.data ws with ⟨wevs, ws', wout⟩
        cases wout with
        | werr e =>
          obtain ⟨-, ev1, hev1, hbad⟩ := writeAll_werr_written e ws r0.data wevs ws' hw
          have hmem : ev1 ∈ (_forwardConn clock timeout k count (r0 :: rs) ws).trace := by
            simp [_forwardConn, hrerr, hw, hev1]
          have := hok ev1 hmem
          rw [hbad] at this
          simp at this
        | stuck =>
          simp [_forwardConn, hrerr, hw] at hs
        | flushed =>
          have hflush := writeAll_flushed_written ws r0.data wevs ws' hw
          have hs' : (_forwardConn clock timeout (k + 2) (count + r0.data.length) rs
              ws').sent.isSome = true := by
            simpa [_forwardConn, hrerr, hw] using hs
          have hok' : ∀ ev ∈ (_forwardConn clock timeout (k + 2)
              (count + r0.data.length) rs ws').trace, ev.writeOk = true := by
            intro ev hev
            apply hok ev
            simp [_forwardConn, hrerr, hw, hev]
          have hIH := ih ws' (k + 2) (count + r0.data.length) hs' hok'
          have hwb : writtenBytes wevs = r0.data.length := by
            rw [writtenBytes_eq_length, hflush]
          simp only [_forwardConn, hrerr, hw]
          simp only [RunResult.count, RunResult.trace] at hIH ⊢
          simp only [writtenBytes, writtenBytes_append, hwb] at *
          omega

/-- Witness for the amended C5: a clean session (one 1-byte chunk flushed,
then read EOF) ends with counter = bytes written = 1. -/
theorem counter_monotone_and_flushed_exact_witness :
    (_forwardConn (fun x => x) 5 0 0 [⟨[3], none⟩, ⟨[], some .eof⟩] [⟨1, none⟩]).count =
      0 + writtenBytes
        (_forwardConn (fun x => x) 5 0 0 [⟨[3], none⟩, ⟨[], some .eof⟩]
          [⟨1, none⟩]).trace :=
  (counter_monotone_and_flushed_exact [⟨[3], none⟩, ⟨[], some .eof⟩] [⟨1, none⟩]
    (fun x => x) 5 0 0).2 (by decide) (by decide)

/-! ## Claim C7: each successful read's chunk is written exactly -/

/-- C7: in an iteration whose read succeeds with chunk `d`, the inner loop
writes exactly `d` to the destination when it flushes (the concatenation
of the accepted byte runs is `d`), looping on partial writes, and the
counter event follows the chunk's write events; if a write errors instead,
only a prefix (`take`) of `d` was handed over, the terminal event is the
write error, and the counter is not incremented (no `countAdd` event). -/
theorem chunk_write_exact (d : List Nat) (ws : List WriteRes) (clock : Nat → Nat)
    (timeout k count : Nat) (rs : List ReadRes) :
    ((writeAll d ws).2.2 = WOut.flushed →
      writtenData (writeAll d ws).1 = d ∧
      ∃ t, (_forwardConn clock timeout k count (⟨d, none⟩ :: rs) ws).trace =
        (Ev.setDeadline .sConn (clock k + timeout) ::
          Ev.setDeadline .oConn (clock (k + 1) + timeout) ::
          Ev.readEv ⟨d, none⟩ :: (writeAll d ws).1) ++ Ev.countAdd d.length :: t) ∧
    (∀ e, (writeAll d ws).2.2 = WOut.werr e →
      writtenData (writeAll d ws).1 = d.take (writtenData (writeAll d ws).1).length ∧
      (_forwardConn clock timeout k count (⟨d, none⟩ :: rs) ws).sent =
        some (writeTerminal e) ∧
      (_forwardConn clock timeout k count (⟨d, none⟩ :: rs) ws).count = count ∧
      ∀ ev ∈ (_forwardConn clock timeout k count (⟨d, none⟩ :: rs) ws).trace,
        ev.isCount = false) := by
  rcases hw : writeAll d ws with ⟨wevs, ws', wout⟩
  constructor
  · intro hfl
    simp only at hfl
    subst hfl
    have hflush := writeAll_flushed_written ws d wevs ws' hw
    refine ⟨by simpa using hflush, ?_⟩
    exact ⟨(_forwardConn clock timeout (k + 2) (count + d.length) rs ws').trace,
      by simp [_forwardConn, hw]⟩
  · intro e hwe
    simp only at hwe
    subst hwe
    obtain ⟨⟨k1, hk1⟩, -⟩ := writeAll_werr_written e ws d wevs ws' hw
    refine ⟨?_, by simp [_forwardConn, hw], by simp [_forwardConn, hw], ?_⟩
    · simp only [hk1]
      apply (List.take_eq_take).mpr
      simp [List.length_take]
    · intro ev hev
      simp [_forwardConn, hw] at hev
      rcases hev with h | h | h | h | h
      · simp [h, Ev.isCount]
      · simp [h, Ev.isCount]
      · simp [h, Ev.isCount]
      · exact Ev.not_count_of_write (writeAll_events_write ws d ev (by rw [hw]; exact h))
      · simp [h, Ev.isCount]

/-- Witness for C7: chunk `[3, 4]` flushed through two partial writes is
delivered exactly; the count event follows the write events. -/
theorem chunk_write_exact_witness :
    writtenData (writeAll [3, 4] [⟨1, none⟩, ⟨1, none⟩]).1 = [3, 4] ∧
    ∃ t, (_forwardConn (fun x => x) 5 0 0 (⟨[3, 4], none⟩ :: [])
        [⟨1, none⟩, ⟨1, none⟩]).trace =
      (Ev.setDeadline .sConn ((fun x => x) 0 + 5) ::
        Ev.setDeadline .oConn ((fun x => x) (0 + 1) + 5) ::
        Ev.readEv ⟨[3, 4], none⟩ :: (writeAll [3, 4] [⟨1, none⟩, ⟨1, none⟩]).1) ++
        Ev.countAdd ([3, 4] : List Nat).length :: t :=
  (chunk_write_exact [3, 4] [⟨1, none⟩, ⟨1, none⟩] (fun x => x) 5 0 0 []).1 (by decide)

/-! ## Claim C10: a read returning bytes together with an error -/

/-- C10: when a read returns a non-empty chunk together with a non-nil
error in the same call, the task reports the terminal event and returns:
the chunk is never written (no write event) and never counted (final
counter unchanged, no count event). -/
theorem read_error_discards_chunk (clock : Nat → Nat) (timeout k count : Nat)
    (d : List Nat) (e : GoErr) (rs : List ReadRes) (ws : List WriteRes)
    (_hd : d ≠ []) :
    (_forwardConn clock timeout k count (⟨d, some e⟩ :: rs) ws).count = count ∧
    (_forwardConn clock timeout k count (⟨d, some e⟩ :: rs) ws).sent =
      some (readTerminal e) ∧
    (∀ ev ∈ (_forwardConn clock timeout k count (⟨d, some e⟩ :: rs) ws).trace,
      ev.isWrite = false) ∧
    (∀ ev ∈ (_forwardConn clock timeout k count (⟨d, some e⟩ :: rs) ws).trace,
      ev.isCount = false) := by
  refine ⟨by simp [_forwardConn], by simp [_forwardConn], ?_, ?_⟩
  · intro ev hev
    simp [_forwardConn] at hev
    rcases hev with h | h | h | h <;> simp [h, Ev.isWrite]
  · intro ev hev
    simp [_forwardConn] at hev
    rcases hev with h | h | h | h <;> simp [h, Ev.isCount]

/-- Witness for C10: a read returning `[9]` together with a timeout error
reports the annotated read error, writes nothing and counts nothing. -/
theorem read_error_discards_chunk_witness :
    (_forwardConn (fun _ => 0) 1 0 7 [⟨[9], some (.other "timeout")⟩]
        [⟨1, none⟩]).count = 7 ∧
    (_forwardConn (fun _ => 0) 1 0 7 [⟨[9], some (.other "timeout")⟩]
        [⟨1, none⟩]).sent = some (readTerminal (.other "timeout")) ∧
    (∀ ev ∈ (_forwardConn (fun _ => 0) 1 0 7 [⟨[9], some (.other "timeout")⟩]
        [⟨1, none⟩]).trace, ev.isWrite = false) ∧
    (∀ ev ∈ (_forwardConn (fun _ => 0) 1 0 7 [⟨[9], some (.other "timeout")⟩]
        [⟨1, none⟩]).trace, ev.isCount = false) :=
  read_error_discards_chunk (fun _ => 0) 1 0 7 [9] (.other "timeout") [] [⟨1, none⟩]
    (by decide)

/-! ## Claim C8: classification of terminal events -/

/-- C8 counterexample to the claim as stated: a `Write` call that fails
with `io.EOF` is a non-read-EOF error, yet it is reported as the bare
clean-EOF terminal event and not as a forwarding error annotated with the
write direction and the cause. -/
theorem write_eof_unannotated_cex :
    (_forwardConn (fun _ => 0) 0 0 0 [⟨[1], none⟩] [⟨0, some .eof⟩]).sent =
      some GoErr.eof ∧
    (_forwardConn (fun _ => 0) 0 0 0 [⟨[1], none⟩] [⟨0, some .eof⟩]).sent ≠
      some (GoErr.other ("转发写错误：" ++ GoErr.message GoErr.eof)) := by
  decide

/-- C8 (amended): a clean read EOF is reported as the bare EOF terminal
event, distinct from all annotated errors; any other read error is
reported annotated with the read role and the underlying cause, and any
other write error annotated with the write role and the cause — except a
write error equal to `io.EOF`, which the code reports as the same bare
EOF event as a clean read EOF. -/
theorem terminal_classification (clock : Nat → Nat) (timeout k count : Nat)
    (d : List Nat) (rs : List ReadRes) (ws ws2 : List WriteRes) (e : GoErr) (n : Nat) :
    ((_forwardConn clock timeout k count (⟨d, some .eof⟩ :: rs) ws).sent =
      some GoErr.eof) ∧
    (e ≠ .eof →
      (_forwardConn clock timeout k count (⟨d, some e⟩ :: rs) ws).sent =
        some (GoErr.other ("转发读错误：" ++ e.message)) ∧
      GoErr.other ("转发读错误：" ++ e.message) ≠ GoErr.eof) ∧
    (d ≠ [] →
      (_forwardConn clock timeout k count (⟨d, none⟩ :: rs)
        (⟨n, some .eof⟩ :: ws2)).sent = some GoErr.eof) ∧
    (d ≠ [] → e ≠ .eof →
      (_forwardConn clock timeout k count (⟨d, none⟩ :: rs)
        (⟨n, some e⟩ :: ws2)).sent =
        some (GoErr.other ("转发写错误：" ++ e.message)) ∧
      GoErr.other ("转发写错误：" ++ e.message) ≠ GoErr.eof) := by
  refine ⟨by simp [_forwardConn, readTerminal], ?_, ?_, ?_⟩
  · intro hne
    exact ⟨by simp [_forwardConn, readTerminal, hne], by simp⟩
  · intro hd
    cases d with
    | nil => exact absurd rfl hd
    | cons a bs => simp [_forwardConn, writeAll, writeTerminal]
  · intro hd hne
    cases d with
    | nil => exact absurd rfl hd
    | cons a bs =>
      exact ⟨by simp [_forwardConn, writeAll, writeTerminal, hne], by simp⟩

/-- Witness for the amended C8: read EOF gives the bare EOF event, and a
write error `"reset"` gives the annotated write-error event. -/
theorem terminal_classification_witness :
    ((_forwardConn (fun _ => 0) 1 0 0 [⟨[], some .eof⟩] []).sent = some GoErr.eof) ∧
    (_forwardConn (fun _ => 0) 1 0 0 [⟨[2], none⟩] [⟨0, some (.other "reset")⟩]).sent =
      some (GoErr.other ("转发写错误：" ++ GoErr.message (.other "reset"))) ∧
    GoErr.other ("转发写错误：" ++ GoErr.message (.other "reset")) ≠ GoErr.eof :=
  ⟨(terminal_classification (fun _ => 0) 1 0 0 [] [] [] [] (.other "reset") 0).1,
    (terminal_classification (fun _ => 0) 1 0 0 [2] [] [] [] (.other "reset") 0).2.2.2
      (by decide) (by decide)⟩

/-! ## Claim C4: `forwardConn` returns the first terminal event -/

/-- C4: when both directions terminate, `forwardConn` returns exactly one
terminal event, the first one sent in schedule order; both sends fit in
the channel without blocking, and the channel capacity (10) is at least
the required 2, so the later terminal report never blocks its task. -/
theorem forwardConn_first_terminal (timeout : Nat) (sendO recvO : DirOracle)
    (sched : Bool) (a b : GoErr)
    (h1 : (runDir timeout sendO).sent = some a)
    (h2 : (runDir timeout recvO).sent = some b) :
    forwardConn timeout sendO recvO sched = some (if sched then a else b) ∧
    chanSendAll errChanCap [] (if sched then [a, b] else [b, a]) =
      some (if sched then [a, b] else [b, a]) ∧
    2 ≤ errChanCap := by
  refine ⟨?_, ?_, by norm_num [errChanCap]⟩
  · simp only [forwardConn, h1, h2]
    cases sched <;> simp [chanSendAll, errChanCap]
  · cases sched <;> simp [chanSendAll, errChanCap]

/-- Witness for C4: both directions fail (EOF and a read error); the
engine returns the first scheduled event only. -/
theorem forwardConn_first_terminal_witness :
    forwardConn 7 ⟨fun _ => 0, [⟨[], some .eof⟩], []⟩
        ⟨fun _ => 0, [⟨[], some (.other "boom")⟩], []⟩ true =
      some (if true then GoErr.eof else GoErr.other "转发读错误：boom") ∧
    chanSendAll errChanCap []
        (if true then [GoErr.eof, GoErr.other "转发读错误：boom"]
         else [GoErr.other "转发读错误：boom", GoErr.eof]) =
      some (if true then [GoErr.eof, GoErr.other "转发读错误：boom"]
            else [GoErr.other "转发读错误：boom", GoErr.eof]) ∧
    2 ≤ errChanCap :=
  forwardConn_first_terminal 7 ⟨fun _ => 0, [⟨[], some .eof⟩], []⟩
    ⟨fun _ => 0, [⟨[], some (.other "boom")⟩], []⟩ true GoErr.eof
    (GoErr.other "转发读错误：boom") (by decide) (by decide)

end TcpRoute
